import Mathlib

/-!
# Skillcape Transcoder — verification of the job lifecycle engine

A shallow embedding of the transcoder's job lifecycle engine, translated from
the Go sources:

* `internal/jobs/model.go` — the `Job` record and its status values,
* `internal/jobs/queue.go` — the bounded queue (buffered channel + running set),
* `internal/jobs/worker.go` — the worker pool's per-job boundary,
* `internal/webhook/client.go` — the notifier with bounded retry,
* `internal/api/middleware.go` — API-key authentication,
* `internal/api/routes.go` — job submission and cancellation handlers,
* `internal/transcoder/ffmpeg.go` — progress parsing and reporting,
* `cmd/server/main.go` — the pipeline (`createJobProcessor`,
  `handleJobFailure`) and startup recovery (`recoverPendingJobs`),
* `db/db.go` — the record store operations used by the above.

Timestamps are modelled as natural numbers; Go `int` values as `Int`;
fallible operations return `Option`/`Except`; the effect of each
`db.UpdateJob`/`db.CreateJob` call is explicit state passing.
-/

namespace Transcoder

/-- Job status values from `internal/jobs/model.go`. -/
inductive JobStatus
  | pending
  | processing
  | completed
  | failed
  | cancelled
deriving DecidableEq, Repr

/-- The persistent job record from `internal/jobs/model.go` (`Job`).
`completedAt` models the nilable `*time.Time` field; timestamps are natural
numbers.  The gorm soft-delete column is not part of the lifecycle claims and
is omitted. -/
structure Job where
  id : String
  status : JobStatus
  inputPath : String
  outputPath : String
  driveURL : String
  driveFileID : String
  progress : Int
  error : String
  originalName : String
  createdAt : Nat
  updatedAt : Nat
  completedAt : Option Nat
deriving DecidableEq, Repr

/-- Queue errors from `internal/jobs/queue.go`. -/
inductive QueueError
  | queueFull
  | jobNotFound
  | jobCancelled
deriving DecidableEq, Repr

/-- The bounded job queue from `internal/jobs/queue.go`: a buffered channel of
job references plus the running set.  The channel is a FIFO list bounded by
`capacity` (the channel's buffer size); the running set is a list of job ids. -/
structure Queue where
  capacity : Nat
  buffer : List Job
  running : List String
deriving DecidableEq, Repr

/-- `Queue.Enqueue`: the `select`/`default` send on the buffered channel
succeeds exactly when the buffer is below capacity and appends the job at the
back; otherwise it returns `ErrQueueFull` and changes nothing.  The result is
the queue after the call plus the returned error, if any. -/
def Queue.Enqueue (q : Queue) (job : Job) : Queue × Option QueueError :=
  if q.buffer.length < q.capacity then
    ({ q with buffer := q.buffer ++ [job] }, none)
  else
    (q, some .queueFull)

/-- `Queue.MarkRunning`: add a job id to the running set. -/
def Queue.MarkRunning (q : Queue) (jobID : String) : Queue :=
  { q with running := jobID :: q.running }

/-- `Queue.MarkDone`: remove a job id from the running set. -/
def Queue.MarkDone (q : Queue) (jobID : String) : Queue :=
  { q with running := q.running.filter (fun i => i ≠ jobID) }

/-- `Queue.Size`: the buffered (not yet dequeued) count. -/
def Queue.Size (q : Queue) : Nat :=
  q.buffer.length

/-! ## Webhook notifier (`internal/webhook/client.go`) -/

/-- Outcome of one HTTP POST to the webhook endpoint as seen by
`Client.sendRequest`: a response carrying a status code, or a transport
error / timeout with no response. -/
inductive AttemptOutcome
  | status (code : Nat)
  | transportError
deriving DecidableEq, Repr

/-- `Client.sendRequest`: an attempt succeeds exactly when the endpoint
returns a 2xx status (`200 <= code < 300`); a non-2xx status or a transport
failure is an error.  The endpoint's behaviour is a function from the attempt
number to the outcome it produces. -/
def sendRequest (endpoint : Nat → AttemptOutcome) (attempt : Nat) : Bool :=
  match endpoint attempt with
  | .status code => decide (200 ≤ code ∧ code < 300)
  | .transportError => false

/-- The retry loop of `Client.Send`
(`for attempt := 0; attempt <= c.retryCount; attempt++`) from attempt number
`attempt` on.  Returns the number of requests issued from this attempt on and
whether the loop ended in success.  Backoff sleeps are dropped (pure model);
the context deadline is assumed not to expire during the loop, matching the
claims, which quantify over endpoint behaviour only. -/
def sendFrom (endpoint : Nat → AttemptOutcome) (retryCount attempt : Nat) : Nat × Bool :=
  if sendRequest endpoint attempt then
    (1, true)
  else if _h : attempt < retryCount then
    let rest := sendFrom endpoint retryCount (attempt + 1)
    (rest.1 + 1, rest.2)
  else
    (1, false)
termination_by retryCount - attempt

/-- `Client.Send`: with no URL configured the notifier no-ops successfully
with zero requests; otherwise it runs the retry loop starting at attempt 0. -/
def Send (url : String) (retryCount : Nat) (endpoint : Nat → AttemptOutcome) : Nat × Bool :=
  if url = "" then (0, true)
  else sendFrom endpoint retryCount 0

/-! ## Processing pipeline (`cmd/server/main.go`) -/

/-- The per-job behaviour of the external collaborators during one pipeline
run: the progress values the transcode collaborator's callback reports, the
transcode result (`none` = success, `some cause` = failure), whether a Google
Drive client is configured, and the Drive upload result
(`(fileID, webViewLink)` on success).  `now` is the wall-clock reading used
for the timestamps written during the run. -/
structure PipelineEnv where
  now : Nat
  progressReports : List Int
  transcodeError : Option String
  driveConfigured : Bool
  uploadResult : Except String (String × String)
deriving Repr

/-- `handleJobFailure` from `cmd/server/main.go`: mark the job failed, record
the cause, stamp `CompletedAt`/`UpdatedAt`, and persist. -/
def handleJobFailure (job : Job) (now : Nat) (errMsg : String) : Job :=
  { job with
      status := .failed
      error := errMsg
      completedAt := some now
      updatedAt := now }

/-- The progress callback created in `createJobProcessor`, applied to each
value the transcode collaborator reports in order: each call overwrites
`Progress`, stamps `UpdatedAt`, and persists. -/
def applyProgressCallback (job : Job) (now : Nat) (reports : List Int) : Job :=
  reports.foldl (fun j p => { j with progress := p, updatedAt := now }) job

/-- The completion block of `createJobProcessor`: mark completed, force
progress to 100, stamp `CompletedAt`/`UpdatedAt`, and persist. -/
def markCompleted (job : Job) (now : Nat) : Job :=
  { job with
      status := .completed
      progress := 100
      completedAt := some now
      updatedAt := now }

/-- The pipeline body returned by `createJobProcessor` in
`cmd/server/main.go`, as a function from the collaborators' behaviour and the
job record to the record after the run.  Faithful to the source order:
unconditionally set `processing` and persist, run the transcode collaborator
(progress callbacks, then its result), on failure `handleJobFailure`; if a
Drive client is configured run the upload, on failure `handleJobFailure`, on
success record the file id and link; then `markCompleted`.  Note: the job's
current status is never consulted — in particular no cancellation check
precedes any stage. -/
def createJobProcessor (env : PipelineEnv) (job : Job) : Job :=
  let job1 := { job with status := .processing, updatedAt := env.now }
  let job2 := applyProgressCallback job1 env.now env.progressReports
  match env.transcodeError with
  | some cause => handleJobFailure job2 env.now ("transcoding failed: " ++ cause)
  | none =>
    if env.driveConfigured then
      match env.uploadResult with
      | .error cause => handleJobFailure job2 env.now ("drive upload failed: " ++ cause)
      | .ok (fileID, webViewLink) =>
        markCompleted { job2 with driveFileID := fileID, driveURL := webViewLink } env.now
    else
      markCompleted job2 env.now

/-! ## Worker boundary (`internal/jobs/worker.go`) -/

/-- How one invocation of the processor (`wp.processor(jobCtx, job)`) ends
from the worker's point of view: a normal return with `nil`, a normal return
with an error value, or a Go panic raised inside the pipeline. -/
inductive PipelineOutcome
  | ok
  | errReturn (msg : String)
  | panicRaised
deriving DecidableEq, Repr

/-- Result of running a Go function that may panic: either a normal result or
a propagating panic.  A panic passes through every frame that has no deferred
`recover`. -/
inductive ExecResult (α : Type)
  | normal (a : α)
  | panicked
deriving DecidableEq, Repr

/-- `WorkerPool.processJob` from `internal/jobs/worker.go`: mark the job
running, invoke the processor, log its error if any, and (via `defer`) mark
the job done.  The deferred calls contain no `recover`, so a panic raised by
the processor unwinds through `processJob`: the running-set bookkeeping still
runs, but the panic propagates to the caller.  An error return is only
logged. -/
def processJob (q : Queue) (jobID : String)
    (outcome : PipelineOutcome) : ExecResult Queue :=
  let q1 := q.MarkRunning jobID
  let q2 := q1.MarkDone jobID
  match outcome with
  | .panicRaised => .panicked
  | .ok => .normal q2
  | .errReturn _ => .normal q2

/-- The worker pull-loop from `internal/jobs/worker.go` over a finite schedule
of delivered jobs: process each in turn via `processJob`; the loop (and with
it the goroutine) survives a job exactly as long as no panic escapes
`processJob` — `worker` has no `recover` either.  Returns the queue state
after the jobs the worker survived, or `panicked` if a panic killed it. -/
def runWorker (schedule : List (String × PipelineOutcome))
    (q : Queue) : ExecResult Queue :=
  match schedule with
  | [] => .normal q
  | (jobID, outcome) :: rest =>
    match processJob q jobID outcome with
    | .panicked => .panicked
    | .normal q2 => runWorker rest q2

/-! ## API-key authentication (`internal/api/middleware.go`) -/

/-- Result of the `APIKeyAuth` middleware: pass the request on (`c.Next()`),
or abort with 401 and the given error message. -/
inductive AuthResult
  | next
  | unauthorized (msg : String)
deriving DecidableEq, Repr

/-- `c.GetHeader("X-API-Key")`: an absent header reads as the empty string
(Go's `http.Header.Get` conflates a missing header with an empty value). -/
def getHeader (header : Option String) : String :=
  header.getD ""

/-- The `APIKeyAuth` middleware from `internal/api/middleware.go`, as a
function of the configured key and the header value `GetHeader` returned. -/
def APIKeyAuth (apiKey providedKey : String) : AuthResult :=
  if apiKey = "" then
    .next
  else if providedKey = "" then
    .unauthorized "missing API key"
  else if providedKey ≠ apiKey then
    .unauthorized "invalid API key"
  else
    .next

/-! ## Transcode progress reporting (`internal/transcoder/ffmpeg.go`) -/

/-- Decimal digit value of a character, as `strconv.ParseInt` reads it. -/
def charDigit? (c : Char) : Option Nat :=
  if '0' ≤ c ∧ c ≤ '9' then some (c.toNat - 48) else none

/-- Base-10 parse of a non-empty all-digit character list; `none` on an empty
list or any non-digit, matching `strconv.ParseInt`'s digit loop. -/
def parseDigits : List Char → Option Nat
  | [] => none
  | cs =>
    cs.foldl
      (fun acc c =>
        match acc, charDigit? c with
        | some n, some d => some (n * 10 + d)
        | _, _ => none)
      (some 0)

/-- `strconv.ParseInt(s, 10, 64)` on a character list: an optional sign
followed by digits.  (The 64-bit range check is immaterial for progress
lines and not modelled.) -/
def parseIntChars : List Char → Option Int
  | '-' :: cs => (parseDigits cs).map (fun n => -(n : Int))
  | '+' :: cs => (parseDigits cs).map (fun n => (n : Int))
  | cs => (parseDigits cs).map (fun n => (n : Int))

/-- One iteration of the stdout scan in `FFmpeg.Transcode`: a line feeds the
progress computation only when it starts with `out_time_ms=`
(`strings.HasPrefix`, modelled over the character list) and the remainder
parses as an integer (`strconv.ParseInt`). -/
def parseOutTimeMs (line : String) : Option Int :=
  let pre := "out_time_ms=".data
  if line.data.take pre.length = pre then
    parseIntChars (line.data.drop pre.length)
  else
    none

/-- The progress computation in `FFmpeg.Transcode`:
`progress := int((float64(timeMs) / float64(duration*1000)) * 100)`, then
clamped above at 100 (and only above).  The float arithmetic is modelled
exactly as the rational value it computes, truncated toward zero as Go's
`int` conversion does (`Int.tdiv`). -/
def computeProgress (timeMs duration : Int) : Int :=
  let progress := (timeMs * 100).tdiv (duration * 1000)
  if progress > 100 then 100 else progress

/-- The sequence of values `FFmpeg.Transcode` passes to the progress callback
for a given stdout line sequence and probed input duration (milliseconds):
one value per parsed `out_time_ms=` line while `duration > 0`, plus a final
100 when `cmd.Wait` reports success. -/
def deliveredProgress (lines : List String) (duration : Int) (waitOk : Bool) : List Int :=
  (if duration > 0 then
    lines.filterMap (fun line => (parseOutTimeMs line).map (fun t => computeProgress t duration))
  else
    []) ++ (if waitOk then [100] else [])

/-! ## Submission and cancellation handlers (`internal/api/routes.go`) -/

/-- Helper for `extOf` over character lists: the suffix beginning at the last
`'.'`, or `[]` when there is no dot. -/
def extOfAux : List Char → List Char
  | [] => []
  | c :: rest =>
    let tail := extOfAux rest
    if tail = [] ∧ c = '.' then c :: rest
    else tail

/-- `filepath.Ext` applied to a bare filename: the suffix from the final dot
on, empty if there is no dot. -/
def extOf (filename : String) : String :=
  extOfAux filename.data |>.asString

/-- `LocalStorage.SaveUpload`'s save path:
`filepath.Join(baseDir, "uploads", jobID + ext)` where `ext` is the
extension of the uploaded filename. -/
def uploadPathFor (baseDir jobID filename : String) : String :=
  baseDir ++ "/uploads/" ++ jobID ++ extOf filename

/-- `LocalStorage.GetOutputPath`:
`filepath.Join(baseDir, "outputs", jobID + ".mp4")`. -/
def outputPathFor (baseDir jobID : String) : String :=
  baseDir ++ "/outputs/" ++ jobID ++ ".mp4"

/-- The job record built by `Handler.CreateJob` in `internal/api/routes.go`
before it is saved: status pending, progress 0, no completion data. -/
def newJob (jobID originalName inputPath outputPath : String) (t : Nat) : Job :=
  { id := jobID
    status := .pending
    inputPath := inputPath
    outputPath := outputPath
    driveURL := ""
    driveFileID := ""
    progress := 0
    error := ""
    originalName := originalName
    createdAt := t
    updatedAt := t
    completedAt := none }

/-- HTTP responses of `Handler.CreateJob`. -/
inductive CreateJobResponse
  | badRequest (msg : String)
  | internalError (msg : String)
  | serviceUnavailable (msg : String)
  | accepted (job : Job)
deriving DecidableEq, Repr

/-- The server-side state the submission path touches: the persisted records
(`db`), the files present in local storage, and the in-memory queue. -/
structure ApiState where
  store : List Job
  files : List String
  queue : Queue
deriving DecidableEq, Repr

/-- `Handler.CreateJob` from `internal/api/routes.go`, with the fallible
collaborators' outcomes as inputs: `formFileOk` (multipart field present),
`saveOk` (`SaveUpload`), `dbOk` (`db.CreateJob`).  Source order: save the
upload, build the record, save it to the db (deleting the file again if the
db insert fails), then enqueue; a full queue yields 503 with no cleanup of
the record or the file. -/
def CreateJob (s : ApiState) (baseDir : String) (formFileOk : Bool)
    (filename jobID : String) (saveOk dbOk : Bool) (t : Nat) :
    ApiState × CreateJobResponse :=
  if !formFileOk then
    (s, .badRequest "no file uploaded")
  else if !saveOk then
    (s, .internalError "failed to save uploaded file")
  else
    let inputPath := uploadPathFor baseDir jobID filename
    let s1 : ApiState := { s with files := s.files ++ [inputPath] }
    let job := newJob jobID filename inputPath (outputPathFor baseDir jobID) t
    if !dbOk then
      ({ s1 with files := s1.files.filter (fun f => f ≠ inputPath) },
        .internalError "failed to create job")
    else
      let s2 : ApiState := { s1 with store := s1.store ++ [job] }
      match s2.queue.Enqueue job with
      | (_, some _) =>
        (s2, .serviceUnavailable "job queue is full, please try again later")
      | (q2, none) =>
        ({ s2 with queue := q2 }, .accepted job)

/-- The status flip in `Handler.DeleteJob` (`internal/api/routes.go`): a
pending or processing record is marked cancelled and persisted; any other
record's status is left as is.  (The subsequent file cleanup and soft delete
do not touch the status field.) -/
def cancelStatusFlip (job : Job) (t : Nat) : Job :=
  if job.status = .pending ∨ job.status = .processing then
    { job with status := .cancelled, updatedAt := t }
  else
    job

/-! ## Record store and startup recovery (`db/db.go`, `cmd/server/main.go`) -/

/-- `db.GetPendingJobs`: the records whose status is pending or processing,
in store order. -/
def GetPendingJobs (store : List Job) : List Job :=
  store.filter (fun j => decide (j.status = .pending ∨ j.status = .processing))

/-- `db.UpdateJob` via gorm's `Save`: replace the record with the matching
primary key. -/
def UpdateJobInStore (store : List Job) (job : Job) : List Job :=
  store.map (fun r => if r.id = job.id then job else r)

/-- The per-record reset in `recoverPendingJobs`: force status back to
pending and progress to 0. -/
def resetJob (j : Job) : Job :=
  { j with status := .pending, progress := 0 }

/-- One iteration of the loop in `recoverPendingJobs`: reset the record,
persist it, then attempt `Enqueue`; an enqueue failure is only logged and
leaves the queue unchanged. -/
def recoverStep (acc : List Job × Queue) (j : Job) : List Job × Queue :=
  let j2 := resetJob j
  let store2 := UpdateJobInStore acc.1 j2
  (store2, (acc.2.Enqueue j2).1)

/-- `recoverPendingJobs` from `cmd/server/main.go`: query the non-terminal
records and run the reset/persist/enqueue loop over them. -/
def recoverPendingJobs (store : List Job) (q : Queue) : List Job × Queue :=
  (GetPendingJobs store).foldl recoverStep (store, q)

/-! ## The per-job lifecycle as a transition system

One job record, followed through every mutation the program performs on it.
`phase` tracks where the record's queue entry is: still buffered (`queued`),
owned by a worker running the pipeline (`running`), or owned by no worker and
buffered nowhere (`idle` — after pipeline completion, after a crash wiped the
in-memory queue, or after a failed enqueue).  A record is enqueued only at
creation and at recovery, and each queue entry is delivered to exactly one
worker, so the only mutation that can reach a buffered record is the cancel
flip. -/

/-- Where a job record's queue entry / worker ownership stands. -/
inductive Phase
  | queued
  | running
  | idle
deriving DecidableEq, Repr

/-- A job record together with its queue/worker phase. -/
structure SysState where
  job : Job
  phase : Phase
deriving DecidableEq, Repr

/-- Every mutation of a single job record performed by the program, one
constructor per write site in the source:

* `dequeueStart` — a worker picked the record up; `createJobProcessor` sets
  `processing` unconditionally (no status check in the source);
* `progressReport` — the progress callback in `createJobProcessor`;
* `complete` — the completion block of `createJobProcessor`, with the Drive
  fields recorded just before it when an upload ran;
* `fail` — `handleJobFailure`;
* `cancel` — the status flip in `Handler.DeleteJob`, applicable only to a
  pending or processing record;
* `crash` — the process dies: the persisted record survives, the in-memory
  queue and worker do not;
* `recover` — the loop body of `recoverPendingJobs`, run at startup for
  records left pending or processing. -/
inductive Step : SysState → SysState → Prop
  | dequeueStart (s : SysState) (t : Nat) :
      s.phase = .queued →
      Step s ⟨{ s.job with status := .processing, updatedAt := t }, .running⟩
  | progressReport (s : SysState) (p : Int) (t : Nat) :
      s.phase = .running →
      Step s ⟨{ s.job with progress := p, updatedAt := t }, .running⟩
  | complete (s : SysState) (fileID link : String) (t : Nat) :
      s.phase = .running →
      Step s ⟨markCompleted { s.job with driveFileID := fileID, driveURL := link } t, .idle⟩
  | fail (s : SysState) (msg : String) (t : Nat) :
      s.phase = .running →
      Step s ⟨handleJobFailure s.job t msg, .idle⟩
  | cancel (s : SysState) (t : Nat) :
      s.job.status = .pending ∨ s.job.status = .processing →
      Step s ⟨{ s.job with status := .cancelled, updatedAt := t }, s.phase⟩
  | crash (s : SysState) :
      Step s ⟨s.job, .idle⟩
  | recover (s : SysState) (enqueued : Bool) :
      s.phase = .idle →
      s.job.status = .pending ∨ s.job.status = .processing →
      Step s ⟨resetJob s.job, if enqueued then .queued else .idle⟩

/-- States reachable from a freshly created record (`Handler.CreateJob`
builds it pending with no completion data and enqueues it). -/
inductive Reachable : SysState → Prop
  | init (jobID originalName inputPath outputPath : String) (t : Nat) :
      Reachable ⟨newJob jobID originalName inputPath outputPath t, .queued⟩
  | step {s s2 : SysState} : Reachable s → Step s s2 → Reachable s2

/-! ## Concrete sample data for evaluating the model -/

/-- A freshly submitted job, as `Handler.CreateJob` builds it. -/
def sampleJob : Job :=
  newJob "job-1" "video.mov" "/data/uploads/job-1.mov" "/data/outputs/job-1.mp4" 3

/-- `sampleJob` after `Handler.DeleteJob` cancelled it while still pending. -/
def cancelledJob : Job :=
  { sampleJob with status := .cancelled, updatedAt := 5 }

/-- Collaborator behaviour for a fully successful run without a Drive
client. -/
def plainSuccessEnv : PipelineEnv :=
  { now := 9
    progressReports := [0, 50, 100]
    transcodeError := none
    driveConfigured := false
    uploadResult := .ok ("", "") }

/-- Collaborator behaviour for a fully successful run with a configured
Drive client returning id `x` and link `http://drive/x`. -/
def driveSuccessEnv : PipelineEnv :=
  { now := 9
    progressReports := [0, 50, 100]
    transcodeError := none
    driveConfigured := true
    uploadResult := .ok ("x", "http://drive/x") }

/-- An idle queue with room for two jobs, currently holding two. -/
def fullQueue : Queue :=
  { capacity := 2, buffer := [sampleJob, cancelledJob], running := [] }

/-- An empty queue that admits nothing. -/
def zeroCapQueue : Queue :=
  { capacity := 0, buffer := [], running := [] }

/-- An empty queue with room for ten jobs. -/
def roomyQueue : Queue :=
  { capacity := 10, buffer := [], running := [] }

/-- Server-side state with an empty store and a queue that is already at
capacity. -/
def fullApiState : ApiState :=
  { store := [], files := [], queue := zeroCapQueue }

/-- A persisted store left behind by a crash: one pending, one processing,
one completed record. -/
def crashedStore : List Job :=
  [ { sampleJob with id := "job-a", status := .pending, progress := 0 },
    { sampleJob with id := "job-b", status := .processing, progress := 40 },
    { sampleJob with
        id := "job-c", status := .completed, progress := 100, completedAt := some 7 } ]

/-- An endpoint that fails the first two attempts with a transport error and
answers 200 from the third attempt on. -/
def flakyEndpoint : Nat → AttemptOutcome :=
  fun attempt => if attempt < 2 then .transportError else .status 200

/-! ## Theorems -/

/-- C6: for every queue whose buffer holds as many entries as its configured
capacity, `Enqueue` returns `QueueFull` and leaves the queue contents
unchanged (the returned queue is the input queue, so its size and its
buffered entries, in order, are untouched); for every queue with free
capacity, `Enqueue` succeeds immediately, appending the job at the back. -/
theorem c6_enqueue_full_unchanged :
    ∀ (q : Queue) (job : Job),
      (q.buffer.length = q.capacity →
        q.Enqueue job = (q, some QueueError.queueFull)) ∧
      (q.buffer.length < q.capacity →
        q.Enqueue job = ({ q with buffer := q.buffer ++ [job] }, none)) := by
  intro q job
  constructor
  · intro hfull
    have hnot : ¬ q.buffer.length < q.capacity := by omega
    simp [Queue.Enqueue, hnot]
  · intro hroom
    simp [Queue.Enqueue, hroom]

/-- Witness for C6 at a concrete full queue and a concrete free queue. -/
theorem c6_enqueue_full_unchanged_witness :
    (fullQueue.buffer.length = fullQueue.capacity ∧
      fullQueue.Enqueue sampleJob = (fullQueue, some QueueError.queueFull)) ∧
    (roomyQueue.buffer.length < roomyQueue.capacity ∧
      roomyQueue.Enqueue sampleJob =
        ({ roomyQueue with buffer := roomyQueue.buffer ++ [sampleJob] }, none)) :=
  ⟨⟨rfl, (c6_enqueue_full_unchanged fullQueue sampleJob).1 rfl⟩,
    ⟨by decide, (c6_enqueue_full_unchanged roomyQueue sampleJob).2 (by decide)⟩⟩

/-- C10: with an empty configured API key the middleware admits every
request; with a non-empty key a request is admitted exactly when the header
value equals the key, a missing header (which `GetHeader` reads as the empty
string) is rejected as "missing API key", and a present non-matching header
is rejected as "invalid API key". -/
theorem c10_api_key_auth :
    ∀ (apiKey provided : String),
      (apiKey = "" → APIKeyAuth apiKey provided = .next) ∧
      (apiKey ≠ "" →
        ((APIKeyAuth apiKey provided = .next) ↔ provided = apiKey) ∧
        (APIKeyAuth apiKey (getHeader none) = .unauthorized "missing API key") ∧
        (provided = "" →
          APIKeyAuth apiKey provided = .unauthorized "missing API key") ∧
        (provided ≠ "" → provided ≠ apiKey →
          APIKeyAuth apiKey provided = .unauthorized "invalid API key")) := by
  intro apiKey provided
  refine ⟨fun hk => by simp [APIKeyAuth, hk], fun hk => ⟨?_, ?_, ?_, ?_⟩⟩
  · constructor
    · intro h
      by_cases hp : provided = ""
      · simp [APIKeyAuth, hk, hp] at h
      · by_cases hpk : provided = apiKey
        · exact hpk
        · simp [APIKeyAuth, hk, hp, hpk] at h
    · intro h
      subst h
      simp [APIKeyAuth, hk]
  · simp [APIKeyAuth, getHeader, hk]
  · intro hp
    simp [APIKeyAuth, hk, hp]
  · intro hp hpk
    simp [APIKeyAuth, hk, hp, hpk]

/-- Witness for C10 at a concrete non-empty key: the matching header is
admitted and the mismatching header is rejected. -/
theorem c10_api_key_auth_witness :
    ("secret" : String) ≠ "" ∧
    APIKeyAuth "secret" "secret" = .next ∧
    APIKeyAuth "secret" "wrong" = .unauthorized "invalid API key" :=
  ⟨by decide,
    ((c10_api_key_auth "secret" "secret").2 (by decide)).1.mpr rfl,
    ((c10_api_key_auth "secret" "wrong").2 (by decide)).2.2.2 (by decide) (by decide)⟩

/-- C1 (refuted by the code): the pipeline body returned by
`createJobProcessor` never consults the record's status — its result is
always `completed` or `failed` — so a job cancelled while pending is not
skipped when a worker dequeues the stale reference: at a concrete cancelled
job with a successful transcode, the run ends `completed`, overwriting the
terminal `cancelled` status. -/
theorem c1_pipeline_overwrites_cancelled :
    (∀ (env : PipelineEnv) (job : Job),
      (createJobProcessor env job).status = .completed ∨
      (createJobProcessor env job).status = .failed) ∧
    cancelledJob.status = .cancelled ∧
    (createJobProcessor plainSuccessEnv cancelledJob).status = .completed := by
  refine ⟨?_, rfl, rfl⟩
  intro env job
  unfold createJobProcessor
  cases env.transcodeError with
  | some cause => right; rfl
  | none =>
    cases hd : env.driveConfigured with
    | false => left; simp [hd, markCompleted]
    | true =>
      cases hu : env.uploadResult with
      | error cause => right; simp [hd, hu, handleJobFailure]
      | ok pair => left; simp [hd, hu, markCompleted]

/-- C2 (refuted by the code): `worker`/`processJob` in
`internal/jobs/worker.go` contain no deferred `recover`, so while an error
returned by the pipeline is only logged and the worker keeps pulling jobs, a
panic raised inside the pipeline propagates past the worker boundary and
kills the worker: with a panic scheduled first, the worker never reaches the
second job. -/
theorem c2_panic_escapes_worker :
    runWorker [("job-1", PipelineOutcome.errReturn "transcoding failed: bad codec"),
        ("job-2", PipelineOutcome.ok)] roomyQueue = .normal roomyQueue ∧
    processJob roomyQueue "job-1" PipelineOutcome.panicRaised = .panicked ∧
    runWorker [("job-1", PipelineOutcome.panicRaised),
        ("job-2", PipelineOutcome.ok)] roomyQueue = .panicked := by
  refine ⟨?_, rfl, rfl⟩
  simp [runWorker, processJob, Queue.MarkRunning, Queue.MarkDone, roomyQueue]

/-- If every attempt from `a` through `retryCount` fails, the retry loop
issues one request per attempt and reports failure. -/
theorem sendFrom_all_fail (endpoint : Nat → AttemptOutcome) (R : Nat) :
    ∀ (n a : Nat), R - a = n → a ≤ R →
      (∀ i, a ≤ i → i ≤ R → sendRequest endpoint i = false) →
      sendFrom endpoint R a = (R - a + 1, false) := by
  intro n
  induction n with
  | zero =>
    intro a hn _ hfail
    have ha : ¬ a < R := by omega
    rw [sendFrom]
    simp [hfail a (Nat.le_refl a) (by omega), ha, hn]
  | succ n ih =>
    intro a hn _ hfail
    have ha : a < R := by omega
    have hrest := ih (a + 1) (by omega) (by omega)
      (fun i hi hi2 => hfail i (by omega) hi2)
    rw [sendFrom]
    simp [hfail a (Nat.le_refl a) (by omega), ha, hrest]
    omega

/-- If every attempt before `k` fails and attempt `k ≤ retryCount` succeeds,
the retry loop stops at `k` after `k - a + 1` requests and reports success. -/
theorem sendFrom_first_success (endpoint : Nat → AttemptOutcome) (R k : Nat) :
    ∀ (n a : Nat), k - a = n → a ≤ k → k ≤ R →
      (∀ i, a ≤ i → i < k → sendRequest endpoint i = false) →
      sendRequest endpoint k = true →
      sendFrom endpoint R a = (k - a + 1, true) := by
  intro n
  induction n with
  | zero =>
    intro a hn ha _ _ hk
    have hak : a = k := by omega
    rw [sendFrom]
    simp [hak, hk, hn]
  | succ n ih =>
    intro a hn ha hkR hfail hk
    have haR : a < R := by omega
    have hrest := ih (a + 1) (by omega) (by omega) hkR
      (fun i hi hi2 => hfail i (by omega) hi2) hk
    rw [sendFrom]
    simp [hfail a (Nat.le_refl a) (by omega), haR, hrest]
    omega

/-- C5: with a non-empty endpoint URL and configured retry count `R`: an
endpoint that fails attempts 0 and 1 and succeeds on attempt 2 (with
`R ≥ 2`) makes `Send` succeed after exactly 3 requests; an endpoint that
fails every attempt makes `Send` fail after exactly `R + 1` requests; and an
attempt succeeds exactly when the endpoint returns a 2xx status — every
other outcome (non-2xx status or transport error/timeout) is a failed
attempt. -/
theorem c5_send_retry_semantics :
    ∀ (url : String) (R : Nat) (endpoint : Nat → AttemptOutcome),
      url ≠ "" →
      ((2 ≤ R → sendRequest endpoint 0 = false → sendRequest endpoint 1 = false →
          sendRequest endpoint 2 = true → Send url R endpoint = (3, true)) ∧
       ((∀ i, i ≤ R → sendRequest endpoint i = false) →
          Send url R endpoint = (R + 1, false)) ∧
       (∀ n, sendRequest endpoint n = true ↔
          ∃ code, endpoint n = .status code ∧ 200 ≤ code ∧ code < 300)) := by
  intro url R endpoint hurl
  refine ⟨?_, ?_, ?_⟩
  · intro hR h0 h1 h2
    have hfail : ∀ i, 0 ≤ i → i < 2 → sendRequest endpoint i = false := by
      intro i _ hi
      interval_cases i
      · exact h0
      · exact h1
    have := sendFrom_first_success endpoint R 2 2 0 rfl (by omega) hR hfail h2
    simpa [Send, hurl] using this
  · intro hfail
    have := sendFrom_all_fail endpoint R R 0 rfl (by omega)
      (fun i _ hi => hfail i hi)
    simpa [Send, hurl] using this
  · intro n
    unfold sendRequest
    cases h : endpoint n with
    | status code => simp [decide_eq_true_iff]
    | transportError => simp

/-- Witness for C5: a concrete endpoint that fails twice then answers 200,
with `R = 3`, and a concrete endpoint that always times out, with `R = 2`. -/
theorem c5_send_retry_semantics_witness :
    (("http://callback" : String) ≠ "" ∧ 2 ≤ 3 ∧
      Send "http://callback" 3 flakyEndpoint = (3, true)) ∧
    Send "http://callback" 2 (fun _ => AttemptOutcome.transportError) = (3, false) :=
  ⟨⟨by decide, by decide,
      (c5_send_retry_semantics "http://callback" 3 flakyEndpoint (by decide)).1
        (by decide) (by decide) (by decide) (by decide)⟩,
    (c5_send_retry_semantics "http://callback" 2 (fun _ => AttemptOutcome.transportError)
        (by decide)).2.1 (fun i _ => rfl)⟩

/-- C8: when the transcode stage succeeds and the configured remote upload
succeeds with id `fileID` and link `link`, the pipeline's final record has
status `completed`, progress 100, the remote reference and URL recorded, and
a non-nil `completedAt`; and the transition to `completed` happens only
after those stages succeed — a transcode failure or an upload failure ends
the run with status `failed` instead. -/
theorem c8_completed_only_after_success :
    ∀ (env : PipelineEnv) (job : Job) (fileID link : String),
      (env.transcodeError = none → env.driveConfigured = true →
        env.uploadResult = .ok (fileID, link) →
        (createJobProcessor env job).status = .completed ∧
        (createJobProcessor env job).progress = 100 ∧
        (createJobProcessor env job).driveFileID = fileID ∧
        (createJobProcessor env job).driveURL = link ∧
        (createJobProcessor env job).completedAt = some env.now) ∧
      (∀ cause, env.transcodeError = some cause →
        (createJobProcessor env job).status = .failed) ∧
      (∀ cause, env.transcodeError = none → env.driveConfigured = true →
        env.uploadResult = .error cause →
        (createJobProcessor env job).status = .failed) := by
  intro env job fileID link
  refine ⟨?_, ?_, ?_⟩
  · intro ht hd hu
    simp [createJobProcessor, ht, hd, hu, markCompleted]
  · intro cause ht
    simp [createJobProcessor, ht, handleJobFailure]
  · intro cause ht hd hu
    simp [createJobProcessor, ht, hd, hu, handleJobFailure]

/-- Witness for C8 at a concrete job whose transcode reports 0→50→100 and
whose upload returns `("x", "http://drive/x")`. -/
theorem c8_completed_only_after_success_witness :
    (createJobProcessor driveSuccessEnv sampleJob).status = .completed ∧
    (createJobProcessor driveSuccessEnv sampleJob).progress = 100 ∧
    (createJobProcessor driveSuccessEnv sampleJob).driveFileID = "x" ∧
    (createJobProcessor driveSuccessEnv sampleJob).driveURL = "http://drive/x" ∧
    (createJobProcessor driveSuccessEnv sampleJob).completedAt = some driveSuccessEnv.now :=
  (c8_completed_only_after_success driveSuccessEnv sampleJob "x" "http://drive/x").1
    rfl rfl rfl

/-- C3 (refuted by the code): when `Enqueue` rejects the submission with
`QueueFull`, `Handler.CreateJob` does return the error immediately (503),
but it performs no rollback: at a concrete state whose queue is full, the
job record is still persisted in the store and the uploaded input file is
still in local storage after the rejection. -/
theorem c3_queuefull_counterexample :
    (CreateJob fullApiState "/data" true "video.mov" "job-1" true true 3).2 =
      .serviceUnavailable "job queue is full, please try again later" ∧
    (CreateJob fullApiState "/data" true "video.mov" "job-1" true true 3).1.store =
      [newJob "job-1" "video.mov" "/data/uploads/job-1.mov" "/data/outputs/job-1.mp4" 3] ∧
    (CreateJob fullApiState "/data" true "video.mov" "job-1" true true 3).1.files =
      ["/data/uploads/job-1.mov"] := by
  refine ⟨rfl, ?_, ?_⟩ <;> decide

/-- C3 as amended: for every submission in which `Enqueue` fails with
`QueueFull`, the error is surfaced to the caller immediately (503) and the
queue contents are unchanged, but the job record remains persisted in the
store (status pending) and the uploaded input file remains in local
storage. -/
theorem c3_queuefull_surfaced_no_rollback :
    ∀ (s : ApiState) (baseDir filename jobID : String) (t : Nat),
      ¬ s.queue.buffer.length < s.queue.capacity →
      CreateJob s baseDir true filename jobID true true t =
        ({ s with
            files := s.files ++ [uploadPathFor baseDir jobID filename]
            store := s.store ++
              [newJob jobID filename (uploadPathFor baseDir jobID filename)
                (outputPathFor baseDir jobID) t] },
          .serviceUnavailable "job queue is full, please try again later") := by
  intro s baseDir filename jobID t hfull
  simp [CreateJob, Queue.Enqueue, hfull]

/-- Witness for C3's amended statement at a concrete full queue. -/
theorem c3_queuefull_surfaced_no_rollback_witness :
    ¬ fullApiState.queue.buffer.length < fullApiState.queue.capacity ∧
    CreateJob fullApiState "/data" true "video.mov" "job-1" true true 3 =
      ({ fullApiState with
          files := fullApiState.files ++ ["/data/uploads/job-1.mov"]
          store := fullApiState.store ++
            [newJob "job-1" "video.mov" "/data/uploads/job-1.mov"
              "/data/outputs/job-1.mp4" 3] },
        .serviceUnavailable "job queue is full, please try again later") :=
  ⟨by decide,
    c3_queuefull_surfaced_no_rollback fullApiState "/data" "video.mov" "job-1" 3 (by decide)⟩

/-- Resetting a record for recovery keeps its primary key. -/
theorem resetJob_id (j : Job) : (resetJob j).id = j.id := rfl

/-- The recovery loop acts independently on the store and on the queue. -/
theorem recover_foldl_split (sel : List Job) :
    ∀ (st : List Job) (q : Queue),
      sel.foldl recoverStep (st, q) =
        (sel.foldl (fun st j => UpdateJobInStore st (resetJob j)) st,
         sel.foldl (fun q j => (q.Enqueue (resetJob j)).1) q) := by
  induction sel with
  | nil => intro st q; rfl
  | cons j sel ih =>
    intro st q
    simp only [List.foldl_cons]
    exact ih _ _

/-- A fold of by-id store updates is a pointwise map over the store. -/
theorem foldl_update_eq_map (sel : List Job) :
    ∀ (st : List Job),
      sel.foldl (fun st j => UpdateJobInStore st (resetJob j)) st =
        st.map (fun r =>
          sel.foldl (fun v j => if v.id = (resetJob j).id then resetJob j else v) r) := by
  induction sel with
  | nil => intro st; simp
  | cons j sel ih =>
    intro st
    simp only [List.foldl_cons]
    rw [ih]
    simp [UpdateJobInStore, List.map_map, Function.comp]

/-- A record whose id occurs nowhere in `sel` is untouched by the update
fold. -/
theorem foldl_pick_eq_of_not_mem (sel : List Job) :
    ∀ (v : Job), (∀ j ∈ sel, j.id ≠ v.id) →
      sel.foldl (fun v j => if v.id = (resetJob j).id then resetJob j else v) v = v := by
  induction sel with
  | nil => intro v _; rfl
  | cons j sel ih =>
    intro v h
    simp only [List.foldl_cons]
    have hj : ¬ v.id = (resetJob j).id := by
      rw [resetJob_id]
      exact fun hh => h j (by simp) hh.symm
    rw [if_neg hj]
    exact ih v (fun j2 hj2 => h j2 (by simp [hj2]))

/-- A record occurring in `sel` is replaced by its reset by the update fold,
provided the ids along `sel` are distinct. -/
theorem foldl_pick_eq_of_mem (sel : List Job) (r : Job)
    (hmem : r ∈ sel) (hnd : (sel.map (fun j => j.id)).Nodup) :
    sel.foldl (fun v j => if v.id = (resetJob j).id then resetJob j else v) r = resetJob r := by
  obtain ⟨l1, l2, rfl⟩ := List.append_of_mem hmem
  rw [List.map_append, List.map_cons] at hnd
  obtain ⟨hn1, hn2, hdisj⟩ := List.nodup_append.1 hnd
  obtain ⟨hr2, _⟩ := List.nodup_cons.1 hn2
  have h1 : ∀ j ∈ l1, j.id ≠ r.id := by
    intro j hj heq
    exact hdisj (List.mem_map_of_mem _ hj) (by simp [heq])
  have h2 : ∀ j ∈ l2, j.id ≠ (resetJob r).id := by
    intro j hj heq
    rw [resetJob_id] at heq
    exact hr2 (heq ▸ List.mem_map_of_mem _ hj)
  rw [List.foldl_append]
  rw [foldl_pick_eq_of_not_mem l1 r h1]
  simp only [List.foldl_cons]
  rw [if_pos (by rw [resetJob_id])]
  exact foldl_pick_eq_of_not_mem l2 (resetJob r) h2

/-- With enough free capacity the recovery loop's enqueue attempts all
succeed, appending the reset records behind the existing buffer in order. -/
theorem enqueue_foldl_append (sel : List Job) :
    ∀ (q : Queue), q.buffer.length + sel.length ≤ q.capacity →
      sel.foldl (fun q j => (q.Enqueue (resetJob j)).1) q =
        { q with buffer := q.buffer ++ sel.map resetJob } := by
  induction sel with
  | nil => intro q _; simp
  | cons j sel ih =>
    intro q hcap
    have hroom : q.buffer.length < q.capacity := by
      simp only [List.length_cons] at hcap
      omega
    simp only [List.foldl_cons]
    have hstep : (q.Enqueue (resetJob j)).1 =
        { q with buffer := q.buffer ++ [resetJob j] } := by
      simp [Queue.Enqueue, hroom]
    rw [hstep, ih]
    · simp
    · simp only [List.length_append, List.length_singleton]
      simp only [List.length_cons] at hcap
      omega

/-- C4: at startup the recovery routine selects exactly the records with
status pending or processing (`GetPendingJobs`); each selected record is
persisted with progress reset to 0 and status forced back to pending, and is
then enqueued (all enqueues succeed when the buffer has room, appending the
reset records in store order); every record in a terminal state is left
untouched. -/
theorem c4_recovery_resets_nonterminal :
    ∀ (store : List Job) (q : Queue),
      (store.map (fun j => j.id)).Nodup →
      ((recoverPendingJobs store q).1 =
          store.map (fun r =>
            if r.status = .pending ∨ r.status = .processing then resetJob r else r)) ∧
      (q.buffer.length + (GetPendingJobs store).length ≤ q.capacity →
        (recoverPendingJobs store q).2.buffer =
          q.buffer ++ (GetPendingJobs store).map resetJob) := by
  intro store q hnd
  constructor
  · unfold recoverPendingJobs
    rw [recover_foldl_split]
    dsimp only
    rw [foldl_update_eq_map]
    apply List.map_congr_left
    intro r hr
    by_cases hp : r.status = .pending ∨ r.status = .processing
    · rw [if_pos hp]
      apply foldl_pick_eq_of_mem
      · exact List.mem_filter.2 ⟨hr, by simpa using hp⟩
      · exact List.Nodup.sublist
          (List.Sublist.map _ (List.filter_sublist store)) hnd
    · rw [if_neg hp]
      apply foldl_pick_eq_of_not_mem
      intro j hj heq
      have hjs := List.mem_filter.1 hj
      have : j = r :=
        List.inj_on_of_nodup_map hnd hjs.1 hr heq
      subst this
      exact hp (by simpa using hjs.2)
  · intro hcap
    unfold recoverPendingJobs
    rw [recover_foldl_split]
    dsimp only
    rw [enqueue_foldl_append _ _ hcap]

/-- Witness for C4 at a crashed store holding one pending, one processing
and one completed record, recovered into a queue with room for all. -/
theorem c4_recovery_resets_nonterminal_witness :
    (crashedStore.map (fun j => j.id)).Nodup ∧
    roomyQueue.buffer.length + (GetPendingJobs crashedStore).length ≤ roomyQueue.capacity ∧
    (recoverPendingJobs crashedStore roomyQueue).1 =
      crashedStore.map (fun r =>
        if r.status = .pending ∨ r.status = .processing then resetJob r else r) ∧
    (recoverPendingJobs crashedStore roomyQueue).2.buffer =
      roomyQueue.buffer ++ (GetPendingJobs crashedStore).map resetJob :=
  ⟨by decide, by decide,
    (c4_recovery_resets_nonterminal crashedStore roomyQueue (by decide)).1,
    (c4_recovery_resets_nonterminal crashedStore roomyQueue (by decide)).2 (by decide)⟩

/-- Strengthened induction invariant for the lifecycle machine: the
`completedAt`/status consistency of C7, plus the auxiliary fact that a
buffered (queued) record is pending or cancelled — creation and recovery
enqueue only pending records, and the only mutation that can reach a record
while it waits in the buffer is the cancel flip. -/
theorem reachable_invariant :
    ∀ (s : SysState), Reachable s →
      ((s.job.completedAt ≠ none ↔
          (s.job.status = .completed ∨ s.job.status = .failed)) ∧
       (s.phase = .queued →
          s.job.status = .pending ∨ s.job.status = .cancelled)) := by
  intro s h
  induction h with
  | init jobID originalName inputPath outputPath t =>
    constructor
    · simp [newJob]
    · intro _
      left
      rfl
  | step hr hstep ih =>
    rename_i s s2
    cases hstep with
    | dequeueStart t hq =>
      have hterm : ¬ (s.job.status = .completed ∨ s.job.status = .failed) := by
        rcases ih.2 hq with h1 | h1 <;> simp [h1]
      have hnone : s.job.completedAt = none := by
        by_contra hne
        exact hterm (ih.1.mp hne)
      constructor
      · simp [hnone]
      · intro hph
        exact Phase.noConfusion hph
    | progressReport p t hr2 =>
      constructor
      · simpa using ih.1
      · intro hph
        exact Phase.noConfusion hph
    | complete fileID link t hr2 =>
      constructor
      · simp [markCompleted]
      · intro hph
        exact Phase.noConfusion hph
    | fail msg t hr2 =>
      constructor
      · simp [handleJobFailure]
      · intro hph
        exact Phase.noConfusion hph
    | cancel t hpp =>
      have hterm : ¬ (s.job.status = .completed ∨ s.job.status = .failed) := by
        rcases hpp with h1 | h1 <;> simp [h1]
      have hnone : s.job.completedAt = none := by
        by_contra hne
        exact hterm (ih.1.mp hne)
      constructor
      · simp [hnone]
      · intro _
        right
        rfl
    | crash =>
      constructor
      · simpa using ih.1
      · intro hph
        exact Phase.noConfusion hph
    | recover enqueued hidle hpp =>
      have hterm : ¬ (s.job.status = .completed ∨ s.job.status = .failed) := by
        rcases hpp with h1 | h1 <;> simp [h1]
      have hnone : s.job.completedAt = none := by
        by_contra hne
        exact hterm (ih.1.mp hne)
      constructor
      · simp [resetJob, hnone]
      · intro _
        left
        rfl

/-- C7: in every reachable state of a job record's lifecycle, `completedAt`
is non-nil exactly when the status is completed or failed — a created,
recovered or cancelled record has it nil, and only the transitions into
completed (`markCompleted`) and failed (`handleJobFailure`) set it. -/
theorem c7_completedAt_iff_terminal :
    ∀ (s : SysState), Reachable s →
      (s.job.completedAt ≠ none ↔
        (s.job.status = .completed ∨ s.job.status = .failed)) :=
  fun s h => (reachable_invariant s h).1

/-- Witness for C7 at the reachable state of a freshly created record. -/
theorem c7_completedAt_iff_terminal_witness :
    Reachable ⟨sampleJob, Phase.queued⟩ ∧
    ((⟨sampleJob, Phase.queued⟩ : SysState).job.completedAt ≠ none ↔
      ((⟨sampleJob, Phase.queued⟩ : SysState).job.status = .completed ∨
        (⟨sampleJob, Phase.queued⟩ : SysState).job.status = .failed)) :=
  ⟨Reachable.init "job-1" "video.mov" "/data/uploads/job-1.mov" "/data/outputs/job-1.mp4" 3,
    c7_completedAt_iff_terminal ⟨sampleJob, Phase.queued⟩
      (Reachable.init "job-1" "video.mov" "/data/uploads/job-1.mov" "/data/outputs/job-1.mp4" 3)⟩

/-- The clamp in the progress computation bounds every value above by 100. -/
theorem computeProgress_le_100 (timeMs duration : Int) :
    computeProgress timeMs duration ≤ 100 := by
  simp only [computeProgress]
  split <;> omega

/-- A non-negative `out_time_ms` and a positive duration give a non-negative
progress value. -/
theorem computeProgress_nonneg (timeMs duration : Int)
    (ht : 0 ≤ timeMs) (hd : 0 < duration) :
    0 ≤ computeProgress timeMs duration := by
  have h0 : 0 ≤ (timeMs * 100).tdiv (duration * 1000) :=
    Int.tdiv_nonneg (by omega) (by omega)
  simp only [computeProgress]
  split <;> omega

/-- The progress computation is monotone in `out_time_ms` over non-negative
inputs, for a positive duration. -/
theorem computeProgress_mono (a b duration : Int)
    (ha : 0 ≤ a) (hab : a ≤ b) (hd : 0 < duration) :
    computeProgress a duration ≤ computeProgress b duration := by
  have h1 : (a * 100).tdiv (duration * 1000) = (a * 100) / (duration * 1000) :=
    Int.tdiv_eq_ediv (by omega) (by omega)
  have h2 : (b * 100).tdiv (duration * 1000) = (b * 100) / (duration * 1000) :=
    Int.tdiv_eq_ediv (by omega) (by omega)
  have h3 : (a * 100) / (duration * 1000) ≤ (b * 100) / (duration * 1000) :=
    Int.ediv_le_ediv (by omega) (by omega)
  have hxy : (a * 100).tdiv (duration * 1000) ≤ (b * 100).tdiv (duration * 1000) := by
    rw [h1, h2]
    exact h3
  simp only [computeProgress]
  split <;> split <;> omega

/-- Mapping the progress computation over a non-decreasing list of
non-negative `out_time_ms` values yields a non-decreasing list. -/
theorem chain_map_computeProgress (duration : Int) (hd : 0 < duration) :
    ∀ (l : List Int), (∀ t ∈ l, 0 ≤ t) → l.Chain' (· ≤ ·) →
      (l.map (fun t => computeProgress t duration)).Chain' (· ≤ ·) := by
  intro l
  induction l with
  | nil => intro _ _; simp
  | cons a rest ih =>
    intro hmem hch
    cases rest with
    | nil => simp
    | cons b rest2 =>
      rw [List.map_cons, List.map_cons, List.chain'_cons]
      rw [List.chain'_cons] at hch
      refine ⟨computeProgress_mono a b duration (hmem a (by simp)) hch.1 hd, ?_⟩
      have := ih (fun t ht => hmem t (by simp [ht])) hch.2
      simpa using this

/-- With a positive probed duration the delivered sequence is the mapped
parse results followed by the final 100 on success. -/
theorem deliveredProgress_eq (lines : List String) (duration : Int) (waitOk : Bool)
    (hd : 0 < duration) :
    deliveredProgress lines duration waitOk =
      (lines.filterMap parseOutTimeMs).map (fun t => computeProgress t duration) ++
        (if waitOk then [100] else []) := by
  unfold deliveredProgress
  rw [if_pos hd, ← List.map_filterMap]

/-- Every value delivered to the progress callback is at most 100. -/
theorem deliveredProgress_le_100 (lines : List String) (duration : Int)
    (waitOk : Bool) : ∀ p ∈ deliveredProgress lines duration waitOk, p ≤ 100 := by
  intro p hp
  unfold deliveredProgress at hp
  rcases List.mem_append.1 hp with h | h
  · by_cases hd : duration > 0
    · rw [if_pos hd] at h
      obtain ⟨line, _, hsome⟩ := List.mem_filterMap.1 h
      obtain ⟨t, _, rfl⟩ := Option.map_eq_some'.1 hsome
      exact computeProgress_le_100 t duration
    · rw [if_neg hd] at h
      simp at h
  · rcases hw : waitOk with _ | _ <;> rw [hw] at h <;> simp at h
    omega

/-- C9 (refuted by the code): the progress values delivered to the callback
are clamped above at 100 but neither clamped below at 0 nor forced monotone:
at a concrete line sequence with a negative and a decreasing `out_time_ms`
(and positive duration 1000 ms), the callback receives `[-100, 100, 50]` —
a value outside 0–100 and a decreasing adjacent pair. -/
theorem c9_progress_counterexample :
    deliveredProgress
        ["out_time_ms=-1000000", "out_time_ms=1000000", "out_time_ms=500000"]
        1000 false = [-100, 100, 50] ∧
    ¬ ((0 : Int) ≤ -100) ∧ ¬ ((100 : Int) ≤ 50) := by
  refine ⟨by decide, by decide, by decide⟩

/-- C9 as amended: every delivered progress value is an integer at most 100;
and provided the `out_time_ms` values the collaborator emits are
non-negative and non-decreasing (with a positive probed duration), every
delivered value lies in 0–100 and the delivered sequence is monotonically
non-decreasing. -/
theorem c9_progress_bounds :
    ∀ (lines : List String) (duration : Int) (waitOk : Bool),
      (∀ p ∈ deliveredProgress lines duration waitOk, p ≤ 100) ∧
      (0 < duration →
        (∀ t ∈ lines.filterMap parseOutTimeMs, 0 ≤ t) →
        (lines.filterMap parseOutTimeMs).Chain' (· ≤ ·) →
        (∀ p ∈ deliveredProgress lines duration waitOk, 0 ≤ p) ∧
        (deliveredProgress lines duration waitOk).Chain' (· ≤ ·)) := by
  intro lines duration waitOk
  refine ⟨deliveredProgress_le_100 lines duration waitOk, ?_⟩
  intro hd hnn hch
  rw [deliveredProgress_eq lines duration waitOk hd]
  constructor
  · intro p hp
    rcases List.mem_append.1 hp with h | h
    · obtain ⟨t, ht, rfl⟩ := List.mem_map.1 h
      exact computeProgress_nonneg t duration (hnn t ht) hd
    · rcases hw : waitOk with _ | _ <;> rw [hw] at h <;> simp at h
      omega
  · rw [List.chain'_append]
    refine ⟨chain_map_computeProgress duration hd _ hnn hch, ?_, ?_⟩
    · rcases waitOk with _ | _ <;> simp
    · intro x hx y hy
      have hx2 := List.mem_of_mem_getLast? hx
      obtain ⟨t, _, rfl⟩ := List.mem_map.1 hx2
      rcases hw : waitOk with _ | _ <;> rw [hw] at hy <;> simp at hy
      rw [← hy]
      exact computeProgress_le_100 t duration

/-- Witness for C9's amended statement at a concrete non-decreasing line
sequence with duration 1000 ms and a successful exit. -/
theorem c9_progress_bounds_witness :
    ((0 : Int) < 1000 ∧
      (∀ t ∈ (["out_time_ms=0", "out_time_ms=500000",
          "out_time_ms=1000000"].filterMap parseOutTimeMs), 0 ≤ t) ∧
      (["out_time_ms=0", "out_time_ms=500000",
          "out_time_ms=1000000"].filterMap parseOutTimeMs).Chain' (· ≤ ·)) ∧
    ((∀ p ∈ deliveredProgress ["out_time_ms=0", "out_time_ms=500000",
        "out_time_ms=1000000"] 1000 true, 0 ≤ p) ∧
      (deliveredProgress ["out_time_ms=0", "out_time_ms=500000",
        "out_time_ms=1000000"] 1000 true).Chain' (· ≤ ·)) :=
  by
  have hlit : (["out_time_ms=0", "out_time_ms=500000",
      "out_time_ms=1000000"].filterMap parseOutTimeMs) = [0, 500000, 1000000] := by
    decide
  have hch : (["out_time_ms=0", "out_time_ms=500000",
      "out_time_ms=1000000"].filterMap parseOutTimeMs).Chain' (· ≤ ·) := by
    rw [hlit]
    norm_num [List.chain'_cons]
  exact ⟨⟨by decide, by decide, hch⟩,
    (c9_progress_bounds ["out_time_ms=0", "out_time_ms=500000",
        "out_time_ms=1000000"] 1000 true).2 (by decide) (by decide) hch⟩

end Transcoder
